import Mathlib

/-!
Shallow embedding of `compute_metrics_reloaded.py` (ivadomed/data-conversion):
the per-subject, per-label segmentation-metric evaluation pipeline.

Modelling conventions:
* A volume is its shape together with its flattened voxel data.  Voxel values
  are numeric labels; we embed them as `Int` (the source stores them as
  floating point but compares them only by exact equality, which `Int`
  models faithfully at the level of the properties considered here).
* The external `BinaryPairwiseMeasures` metric engine is an abstract
  function from a (prediction array, reference array, metric-name list)
  triple to a measurement dictionary plus the two empty-mask flags.  Its
  scalar result type is a parameter `σ`.
* Python dictionaries are embedded as ordered association lists, matching
  insertion-order iteration of `dict`.
* File loading (`load_nifti_image`) is external I/O: the embedding takes the
  already-loaded volumes together with the path strings that the source
  stores in the result dictionary.
* Exceptions are embedded with `Except String`.
-/

namespace ComputeMetricsReloaded

variable {σ : Type}

/-- A loaded image: its shape and its (flattened) voxel data.
Labels are numeric values; `0` is background. -/
structure Volume where
  shape : List Nat
  data : List Int
deriving DecidableEq, Repr

/-- Insert a value into a (non-strictly) ascending list, keeping it ascending. -/
def insertSorted (x : Int) : List Int → List Int
  | [] => [x]
  | y :: ys => if x ≤ y then x :: y :: ys else y :: insertSorted x ys

/-- Insertion sort, ascending. -/
def sortInts (l : List Int) : List Int :=
  l.foldr insertSorted []

/-- Collapse adjacent duplicates of a list (removes all duplicates of a
sorted list). -/
def dedupAdj : List Int → List Int
  | [] => []
  | [a] => [a]
  | a :: b :: rest => if a = b then dedupAdj (b :: rest) else a :: dedupAdj (b :: rest)

/-- `np.unique`: the sorted (ascending) list of distinct values of a list. -/
def npUnique (l : List Int) : List Int :=
  dedupAdj (sortInts l)

/-- Python's `max` on a nonempty list (the source only applies it to
nonempty lists; the `[]` case is an arbitrary total-function default). -/
def pymax : List Int → Int
  | [] => 0
  | [a] => a
  | a :: b :: rest => max a (pymax (b :: rest))

/-- The Label Discoverer, embedded from
`compute_metrics_single_subject` lines 119–127: distinct non-zero values of
the reference, distinct non-zero values of the prediction, and
`np.unique` of their concatenation. -/
def discover_labels (reference_data prediction_data : Volume) : List Int :=
  let unique_labels_reference := (npUnique reference_data.data).filter (fun x => x ≠ 0)
  let unique_labels_prediction := (npUnique prediction_data.data).filter (fun x => x ≠ 0)
  npUnique (unique_labels_reference ++ unique_labels_prediction)

/-- The Binary Mask Extractor, embedded from
`np.array(volume == label, dtype=float)`: the same-shaped 0/1 array that is
1 exactly where the volume equals the label. -/
def extract_mask (v : Volume) (label : Int) : List Int :=
  v.data.map (fun x => if x = label then 1 else 0)

/-- A value stored in a row / result dictionary: a path string, a numeric
label, a metric scalar (of the engine's scalar type `σ`), or a flag. -/
inductive Value (σ : Type) where
  | str : String → Value σ
  | label : Int → Value σ
  | scalar : σ → Value σ
  | bool : Bool → Value σ
deriving DecidableEq, Repr

/-- An ordered string-keyed dictionary of values (Python `dict` with
insertion-order iteration). -/
abbrev Dict (σ : Type) : Type := List (String × Value σ)

/-- Python `d[k] = v` on an (insertion-ordered) dictionary: overwrite in
place if the key is present, append otherwise. -/
def dictInsert (d : Dict σ) (k : String) (v : Value σ) : Dict σ :=
  if k ∈ d.map Prod.fst then
    d.map (fun kv => if kv.1 = k then (k, v) else kv)
  else
    d ++ [(k, v)]

/-- Python `d.update(u)`: `d[k] = v` for each entry of `u` in order. -/
def dictUpdate (d : Dict σ) (u : Dict σ) : Dict σ :=
  u.foldl (fun acc kv => dictInsert acc kv.1 kv.2) d

/-- The response of the external `BinaryPairwiseMeasures` engine for one
mask pair: the `to_dict_meas()` dictionary (metric name to scalar, in
engine-response order) and the `flag_empty_ref` / `flag_empty_pred`
attributes. -/
structure EngineResult (σ : Type) where
  meas : List (String × σ)
  flag_empty_ref : Bool
  flag_empty_pred : Bool
deriving DecidableEq, Repr

/-- The external Pairwise Metric Engine (`BPM`), abstracted as a pure
function of the prediction array, the reference array and the metric-name
list. -/
structure Engine (σ : Type) where
  run : List Int → List Int → List String → EngineResult σ

/-- A Metric Record: the engine's measurement dictionary with the two
empty-mask flags stored into it (`dict_seg['EmptyRef'] = ...;
dict_seg['EmptyPred'] = ...`). -/
abbrev MetricRecord (σ : Type) : Type := Dict σ

/-- Build the stored Metric Record from one engine response, exactly as the
source does: take `to_dict_meas()`, then set `EmptyRef`, then `EmptyPred`. -/
def mkRecord (e : EngineResult σ) : MetricRecord σ :=
  let dict_seg : Dict σ := e.meas.map (fun nv => (nv.1, Value.scalar nv.2))
  let dict_seg := dictInsert dict_seg "EmptyRef" (Value.bool e.flag_empty_ref)
  dictInsert dict_seg "EmptyPred" (Value.bool e.flag_empty_pred)

/-- A Subject Result: the `metrics_dict` dictionary of
`compute_metrics_single_subject`.  Its first two (string-keyed) entries are
the reference and prediction paths; the remaining entries are keyed by the
numeric labels, in insertion order. -/
structure SubjectResult (σ : Type) where
  reference : String
  prediction : String
  entries : List (Int × MetricRecord σ)
deriving DecidableEq, Repr

/-- One iteration's work of the per-label loop: binary masks for the
label, one engine call, one stored record. -/
def procEntry (E : Engine σ) (prediction_data reference_data : Volume)
    (metrics : List String) (label : Int) : Int × MetricRecord σ :=
  let prediction_data_label := extract_mask prediction_data label
  let reference_data_label := extract_mask reference_data label
  (label, mkRecord (E.run prediction_data_label reference_data_label metrics))

/-- The `for label in unique_labels: ... if label == max(unique_labels):
break` loop (lines 133–148).  `full` is the list `max` is taken of; the
second component records whether the loop exited through `break` (`true`)
or by exhausting the list (`false`, which in Python runs the `else:`
block). -/
def labelLoop (E : Engine σ) (prediction_data reference_data : Volume)
    (metrics : List String) (full : List Int) :
    List Int → List (Int × MetricRecord σ) × Bool
  | [] => ([], false)
  | label :: rest =>
    let entry := procEntry E prediction_data reference_data metrics label
    if label = pymax full then
      ([entry], true)
    else
      let res := labelLoop E prediction_data reference_data metrics full rest
      (entry :: res.1, res.2)

/-- The `ValueError` message raised for a shape mismatch, naming both
shapes (lines 114–117). -/
def shapeMismatchMsg (predictionShape referenceShape : List Nat) : String :=
  "The prediction and reference (ground truth) images must have the same shape. " ++
    "The prediction image has shape " ++ toString predictionShape ++
    " and the ground truth image has shape " ++ toString referenceShape ++ "."

/-- `compute_metrics_single_subject` (lines 102–162): validate shapes,
discover labels, run the per-label loop with its `break`, and on loop
fallthrough (`else:` block) evaluate the whole volumes under key `0`.
`prediction`/`reference` are the path strings; `prediction_data`/
`reference_data` the loaded volumes (loading is external I/O). -/
def compute_metrics_single_subject (E : Engine σ) (prediction : String)
    (prediction_data : Volume) (reference : String) (reference_data : Volume)
    (metrics : List String) : Except String (SubjectResult σ) :=
  if prediction_data.shape ≠ reference_data.shape then
    .error (shapeMismatchMsg prediction_data.shape reference_data.shape)
  else
    let unique_labels := discover_labels reference_data prediction_data
    let res := labelLoop E prediction_data reference_data metrics unique_labels unique_labels
    if res.2 then
      .ok ⟨reference, prediction, res.1⟩
    else
      -- `else:` block: both the reference and prediction are empty
      let bpm := E.run prediction_data.data reference_data.data metrics
      .ok ⟨reference, prediction, res.1 ++ [((0 : Int), mkRecord bpm)]⟩

/-- Modelled from the spec (§9, §4.4): the explicit-conditional reference
formulation of the Subject Evaluator — if the discovered label set is
empty, route directly to the whole-volume evaluation under reserved key
`0`; otherwise evaluate every discovered label.  Written from the spec's
words, to be compared with the source's `break`/`else` loop. -/
def evaluate_subject_spec (E : Engine σ) (prediction : String)
    (prediction_data : Volume) (reference : String) (reference_data : Volume)
    (metrics : List String) : Except String (SubjectResult σ) :=
  if prediction_data.shape ≠ reference_data.shape then
    .error (shapeMismatchMsg prediction_data.shape reference_data.shape)
  else
    let L := discover_labels reference_data prediction_data
    if L = [] then
      .ok ⟨reference, prediction,
        [((0 : Int), mkRecord (E.run prediction_data.data reference_data.data metrics))]⟩
    else
      .ok ⟨reference, prediction, L.map (procEntry E prediction_data reference_data metrics)⟩

/-- One output row of `build_output_dataframe`: the base dictionary
`{reference, prediction, label}` updated with all fields of the label's
Metric Record (`row.update(metrics)`). -/
def rowOf (item : SubjectResult σ) (label : Int) (metrics : MetricRecord σ) : Dict σ :=
  dictUpdate
    [("reference", Value.str item.reference),
     ("prediction", Value.str item.prediction),
     ("label", Value.label label)]
    metrics

/-- The `rows` list built by the nested loops of `build_output_dataframe`
(lines 171–185): for each Subject Result, one row per label key, in
insertion order. -/
def buildRows : List (SubjectResult σ) → List (Dict σ)
  | [] => []
  | item :: rest => item.entries.map (fun e => rowOf item e.1 e.2) ++ buildRows rest

/-- Keep the first occurrence of each key, dropping keys already seen. -/
def dedupKeep (seen : List String) : List String → List String
  | [] => []
  | c :: rest =>
    if c ∈ seen then dedupKeep seen rest
    else c :: dedupKeep (c :: seen) rest

/-- The column list of a DataFrame built from a list of row dictionaries:
the union of the rows' keys, in order of first appearance. -/
def dfColumns (rows : List (Dict σ)) : List String :=
  dedupKeep [] (rows.foldr (fun r acc => r.map Prod.fst ++ acc) [])

/-- A tabular result: column names plus one cell list per row; `none` is
the missing-value marker (pandas `NaN`) for a field absent from a row. -/
structure DataFrame (σ : Type) where
  columns : List String
  cells : List (List (Option (Value σ)))
deriving DecidableEq, Repr

/-- Modelled from the spec (§4.5, §6): `pandas.DataFrame(rows)` on a list
of dictionaries — the external tabular collaborator.  Columns are the union
of observed fields in order of first appearance; each cell is the row's
value for the column, or the missing-value marker when the row lacks it. -/
def mkDataFrame (rows : List (Dict σ)) : DataFrame σ :=
  ⟨dfColumns rows, rows.map (fun r => (dfColumns rows).map (fun c => r.lookup c))⟩

/-- `build_output_dataframe` (lines 165–189): flatten the Subject Results
into rows and build the DataFrame. -/
def build_output_dataframe (output_list : List (SubjectResult σ)) : DataFrame σ :=
  mkDataFrame (buildRows output_list)

/-- One subject's inputs as seen by `main`: prediction path and volume,
reference path and volume. -/
structure SubjectInput where
  prediction : String
  prediction_data : Volume
  reference : String
  reference_data : Volume
deriving DecidableEq, Repr

/-- The subject loop of `main` (lines 202–216): evaluate each subject in
order, appending its Subject Result to `output_list`; a raised exception
propagates and aborts the loop. -/
def process_subjects (E : Engine σ) (metrics : List String) :
    List SubjectInput → Except String (List (SubjectResult σ))
  | [] => .ok []
  | s :: rest =>
    match compute_metrics_single_subject E s.prediction s.prediction_data
        s.reference s.reference_data metrics with
    | .error e => .error e
    | .ok metrics_dict =>
      match process_subjects E metrics rest with
      | .error e => .error e
      | .ok output_list => .ok (metrics_dict :: output_list)

/-- The whole run of `main` (lines 192–224) up to CSV serialization:
evaluate all subjects, then build the output DataFrame.  An exception
anywhere yields no table at all. -/
def main_run (E : Engine σ) (subjects : List SubjectInput)
    (metrics : List String) : Except String (DataFrame σ) :=
  match process_subjects E metrics subjects with
  | .error e => .error e
  | .ok output_list => .ok (build_output_dataframe output_list)

/-- A concrete deterministic engine used to witness the theorems: each
requested metric gets the sum of both arrays as its scalar, and the empty
flags are exact emptiness of the respective arrays. -/
def testEngine : Engine Int :=
  ⟨fun pm rm ms =>
    { meas := ms.map (fun m => (m, pm.sum + rm.sum)),
      flag_empty_ref := rm.all (fun x => x == 0),
      flag_empty_pred := pm.all (fun x => x == 0) }⟩

/-- The same behavior as `testEngine`, written differently (sums in the
other order): extensionally equal, definitionally distinct. -/
def testEngine2 : Engine Int :=
  ⟨fun pm rm ms =>
    { meas := ms.map (fun m => (m, rm.sum + pm.sum)),
      flag_empty_ref := rm.all (fun x => x == 0),
      flag_empty_pred := pm.all (fun x => x == 0) }⟩

/-- Assign `label` at every mask-true (value `1`) voxel of `mask`, keeping
`acc` elsewhere. -/
def applyMask (acc mask : List Int) (label : Int) : List Int :=
  List.zipWith (fun a mk => if mk = 1 then label else a) acc mask

/-- Modelled from the spec (§8 round-trip property): reconstruct a volume
from its per-label binary masks, starting from an all-background array and
assigning `ℓ` at the mask-true voxels of `extract_mask(V, ℓ)` for each `ℓ`
of the label set. -/
def reconstruct (v : Volume) (labels : List Int) : List Int :=
  labels.foldl (fun acc ℓ => applyMask acc (extract_mask v ℓ) ℓ)
    (List.replicate v.data.length 0)

end ComputeMetricsReloaded

namespace ComputeMetricsReloaded

example : npUnique [3, 1, 3, 0, 1] = [0, 1, 3] := by decide

example : discover_labels ⟨[2, 2], [0, 1, 2, 1]⟩ ⟨[2, 2], [0, 3, 1, 0]⟩ = [1, 2, 3] := by decide

example : extract_mask ⟨[2, 2], [0, 1, 2, 1]⟩ 1 = [0, 1, 0, 1] := by decide

example : pymax [1, 3, 2] = 3 := by decide

example :
    (compute_metrics_single_subject testEngine "p" ⟨[4], [1, 3, 0, 0]⟩
        "r" ⟨[4], [1, 2, 0, 0]⟩ ["dsc"]).map (fun s => s.entries.map Prod.fst) =
      .ok [1, 2, 3] := by
  rfl

example :
    compute_metrics_single_subject testEngine "p" ⟨[2], [0, 0]⟩ "r" ⟨[2], [0, 0]⟩ ["dsc"] =
      .ok ⟨"r", "p", [(0, mkRecord (testEngine.run [0, 0] [0, 0] ["dsc"]))]⟩ := by
  rfl

example :
    compute_metrics_single_subject testEngine "p" ⟨[4, 4, 4], []⟩ "r" ⟨[4, 4, 5], []⟩ ["dsc"] =
      .error (shapeMismatchMsg [4, 4, 4] [4, 4, 5]) := by
  rfl

/-! ### Basic lemmas: sorting and `np.unique` -/

theorem mem_insertSorted (x y : Int) (l : List Int) :
    y ∈ insertSorted x l ↔ y = x ∨ y ∈ l := by
  induction l with
  | nil => simp [insertSorted]
  | cons a t ih =>
    by_cases h : x ≤ a
    · simp [insertSorted, h]
    · simp [insertSorted, h, ih]
      tauto

theorem sorted_insertSorted (x : Int) (l : List Int) (hl : l.Sorted (· ≤ ·)) :
    (insertSorted x l).Sorted (· ≤ ·) := by
  induction l with
  | nil => simp [insertSorted]
  | cons a t ih =>
    rw [List.sorted_cons] at hl
    by_cases h : x ≤ a
    · rw [insertSorted, if_pos h, List.sorted_cons]
      refine ⟨?_, List.sorted_cons.mpr hl⟩
      intro b hb
      rcases List.mem_cons.mp hb with hb | hb
      · exact hb ▸ h
      · exact le_trans h (hl.1 b hb)
    · rw [insertSorted, if_neg h, List.sorted_cons]
      refine ⟨?_, ih hl.2⟩
      intro b hb
      rcases (mem_insertSorted x b t).mp hb with hb | hb
      · exact hb ▸ le_of_lt (lt_of_not_le h)
      · exact hl.1 b hb

theorem mem_sortInts (x : Int) (l : List Int) : x ∈ sortInts l ↔ x ∈ l := by
  induction l with
  | nil => simp [sortInts]
  | cons a t ih =>
    simp only [sortInts, List.foldr_cons, List.mem_cons]
    rw [mem_insertSorted]
    exact or_congr Iff.rfl ih

theorem sorted_sortInts (l : List Int) : (sortInts l).Sorted (· ≤ ·) := by
  induction l with
  | nil => simp [sortInts]
  | cons a t ih => exact sorted_insertSorted a (sortInts t) ih

theorem mem_dedupAdj (x : Int) (l : List Int) : x ∈ dedupAdj l ↔ x ∈ l := by
  induction l with
  | nil => simp [dedupAdj]
  | cons a t ih =>
    cases t with
    | nil => simp [dedupAdj]
    | cons b rest =>
      by_cases hab : a = b
      · subst hab
        rw [dedupAdj, if_pos rfl, ih]
        simp [List.mem_cons]
      · rw [dedupAdj, if_neg hab, List.mem_cons, ih]
        simp [List.mem_cons]

theorem sorted_lt_dedupAdj (l : List Int) (hl : l.Sorted (· ≤ ·)) :
    (dedupAdj l).Sorted (· < ·) := by
  induction l with
  | nil => simp [dedupAdj]
  | cons a t ih =>
    cases t with
    | nil => simp [dedupAdj]
    | cons b rest =>
      rw [List.sorted_cons] at hl
      by_cases hab : a = b
      · rw [dedupAdj, if_pos hab]
        exact ih hl.2
      · rw [dedupAdj, if_neg hab, List.sorted_cons]
        refine ⟨?_, ih hl.2⟩
        intro c hc
        have hcmem : c ∈ b :: rest := (mem_dedupAdj c (b :: rest)).mp hc
        have hab' : a < b := lt_of_le_of_ne (hl.1 b (List.mem_cons_self b rest)) hab
        rcases List.mem_cons.mp hcmem with hc' | hc'
        · exact hc' ▸ hab'
        · exact lt_of_lt_of_le hab'
            ((List.sorted_cons.mp hl.2).1 c hc')

theorem mem_npUnique (x : Int) (l : List Int) : x ∈ npUnique l ↔ x ∈ l := by
  rw [npUnique, mem_dedupAdj, mem_sortInts]

theorem sorted_npUnique (l : List Int) : (npUnique l).Sorted (· < ·) :=
  sorted_lt_dedupAdj _ (sorted_sortInts l)

theorem nodup_npUnique (l : List Int) : (npUnique l).Nodup :=
  (sorted_npUnique l).nodup

/-- Two strictly ascending lists with the same members are equal. -/
theorem sortedLt_eq_of_mem_iff {l₁ l₂ : List Int} (h₁ : l₁.Sorted (· < ·))
    (h₂ : l₂.Sorted (· < ·)) (hm : ∀ x, x ∈ l₁ ↔ x ∈ l₂) : l₁ = l₂ := by
  have hp : List.Perm l₁ l₂ := (List.perm_ext_iff_of_nodup h₁.nodup h₂.nodup).mpr hm
  exact List.eq_of_perm_of_sorted hp
    (h₁.imp (fun h => le_of_lt h)) (h₂.imp (fun h => le_of_lt h))

/-! ### Lemmas about the Label Discoverer -/

theorem mem_discover_labels (reference_data prediction_data : Volume) (x : Int) :
    x ∈ discover_labels reference_data prediction_data ↔
      x ≠ 0 ∧ (x ∈ reference_data.data ∨ x ∈ prediction_data.data) := by
  simp only [discover_labels, mem_npUnique, List.mem_append, List.mem_filter,
    mem_npUnique, decide_eq_true_eq]
  tauto

theorem sorted_discover_labels (reference_data prediction_data : Volume) :
    (discover_labels reference_data prediction_data).Sorted (· < ·) :=
  sorted_npUnique _

theorem discover_labels_nil (reference_data prediction_data : Volume)
    (hr : ∀ x ∈ reference_data.data, x = 0) (hp : ∀ x ∈ prediction_data.data, x = 0) :
    discover_labels reference_data prediction_data = [] := by
  rw [List.eq_nil_iff_forall_not_mem]
  intro x hx
  rw [mem_discover_labels] at hx
  rcases hx.2 with h | h
  · exact hx.1 (hr x h)
  · exact hx.1 (hp x h)

/-! ### Lemmas about `pymax` and the per-label loop -/

theorem pymax_mem (l : List Int) (h : l ≠ []) : pymax l ∈ l := by
  induction l with
  | nil => exact absurd rfl h
  | cons a t ih =>
    cases t with
    | nil => simp [pymax]
    | cons b rest =>
      rcases max_choice a (pymax (b :: rest)) with hm | hm
      · rw [pymax, hm]; exact List.mem_cons_self a _
      · rw [pymax, hm]
        exact List.mem_cons_of_mem a (ih (by simp))

theorem pymax_eq_getLast (l : List Int) (hs : l.Sorted (· < ·)) (h : l ≠ []) :
    pymax l = l.getLast h := by
  induction l with
  | nil => exact absurd rfl h
  | cons a t ih =>
    cases t with
    | nil => simp [pymax]
    | cons b rest =>
      rw [List.sorted_cons] at hs
      have htne : b :: rest ≠ [] := by simp
      have hmem : pymax (b :: rest) ∈ b :: rest := pymax_mem _ htne
      have hlt : a < pymax (b :: rest) := hs.1 _ hmem
      rw [pymax, max_eq_right (le_of_lt hlt), List.getLast_cons htne]
      exact ih hs.2 htne

theorem sorted_dropLast_lt (l : List Int) (hs : l.Sorted (· < ·)) (h : l ≠ [])
    (x : Int) (hx : x ∈ l.dropLast) : x < l.getLast h := by
  induction l with
  | nil => exact absurd rfl h
  | cons a t ih =>
    cases t with
    | nil => simp at hx
    | cons b rest =>
      rw [List.sorted_cons] at hs
      have htne : b :: rest ≠ [] := by simp
      rw [List.getLast_cons htne]
      rw [List.dropLast_cons₂, List.mem_cons] at hx
      rcases hx with hx | hx
      · subst hx
        exact hs.1 _ (List.getLast_mem htne)
      · exact ih hs.2 htne hx

theorem labelLoop_no_max (E : Engine σ) (p r : Volume) (m : List String)
    (full : List Int) (s : List Int) (h : ∀ x ∈ s, x ≠ pymax full) :
    labelLoop E p r m full s = (s.map (procEntry E p r m), false) := by
  induction s with
  | nil => rfl
  | cons a t ih =>
    rw [labelLoop, if_neg (h a (List.mem_cons_self a t)),
      ih (fun x hx => h x (List.mem_cons_of_mem a hx))]
    simp

theorem labelLoop_break (E : Engine σ) (p r : Volume) (m : List String)
    (full : List Int) (s₁ : List Int) (h : ∀ x ∈ s₁, x ≠ pymax full) :
    labelLoop E p r m full (s₁ ++ [pymax full]) =
      ((s₁ ++ [pymax full]).map (procEntry E p r m), true) := by
  induction s₁ with
  | nil => rw [List.nil_append, labelLoop, if_pos rfl]; simp
  | cons a t ih =>
    rw [List.cons_append, labelLoop, if_neg (h a (List.mem_cons_self a t)),
      ih (fun x hx => h x (List.mem_cons_of_mem a hx))]
    simp

/-- Running the per-label loop over the whole (strictly ascending,
nonempty) discovered label list: every label is processed in order and the
loop exits through `break`. -/
theorem labelLoop_full (E : Engine σ) (p r : Volume) (m : List String)
    (L : List Int) (hs : L.Sorted (· < ·)) (hL : L ≠ []) :
    labelLoop E p r m L L = (L.map (procEntry E p r m), true) := by
  have hdec : L.dropLast ++ [L.getLast hL] = L := List.dropLast_append_getLast hL
  have hmax : pymax L = L.getLast hL := pymax_eq_getLast L hs hL
  have hne : ∀ x ∈ L.dropLast, x ≠ pymax L := by
    intro x hx
    rw [hmax]
    exact ne_of_lt (sorted_dropLast_lt L hs hL x hx)
  have h := labelLoop_break E p r m L L.dropLast (fun x hx => hmax ▸ hne x hx)
  rw [hmax, hdec] at h
  exact h

/-- The Subject Evaluator, in closed form (shapes equal): if the
discovered label set is empty the single whole-volume record under key
`0`, otherwise one record per discovered label, in ascending order. -/
theorem evaluator_eq (E : Engine σ) (pn : String) (p : Volume) (rn : String)
    (r : Volume) (m : List String) (hsh : p.shape = r.shape) :
    compute_metrics_single_subject E pn p rn r m =
      .ok ⟨rn, pn,
        if discover_labels r p = []
        then [((0 : Int), mkRecord (E.run p.data r.data m))]
        else (discover_labels r p).map (procEntry E p r m)⟩ := by
  rw [compute_metrics_single_subject, if_neg (by simp [hsh])]
  by_cases hL : discover_labels r p = []
  · rw [hL]
    simp [labelLoop]
  · have hloop := labelLoop_full E p r m (discover_labels r p)
      (sorted_discover_labels r p) hL
    simp [hloop, hL]

/-! ### Lemmas about dictionary assignment and update -/

theorem lookup_overwrite (d : Dict σ) (k : String) (v : Value σ)
    (hm : k ∈ d.map Prod.fst) :
    (d.map (fun kv => if kv.1 = k then (k, v) else kv)).lookup k = some v := by
  induction d with
  | nil => simp at hm
  | cons kv rest ih =>
    obtain ⟨k₁, v₁⟩ := kv
    by_cases hk : k₁ = k
    · subst hk
      simp [List.lookup_cons]
    · have hm' : k ∈ rest.map Prod.fst := by
        simp only [List.map_cons, List.mem_cons] at hm
        exact hm.resolve_left (fun h => hk h.symm)
      have hbeq : (k == k₁) = false := beq_eq_false_iff_ne.mpr (fun h => hk h.symm)
      simp only [List.map_cons, if_neg hk, List.lookup_cons, hbeq]
      exact ih hm'

theorem lookup_overwrite_ne (d : Dict σ) (k k' : String) (v : Value σ)
    (hne : k' ≠ k) :
    (d.map (fun kv => if kv.1 = k then (k, v) else kv)).lookup k' = d.lookup k' := by
  induction d with
  | nil => simp
  | cons kv rest ih =>
    obtain ⟨k₁, v₁⟩ := kv
    by_cases hk : k₁ = k
    · have h1 : (k' == k) = false := beq_eq_false_iff_ne.mpr hne
      have h2 : (k' == k₁) = false := beq_eq_false_iff_ne.mpr (fun h => hne (h.trans hk))
      simp only [List.map_cons, if_pos hk, List.lookup_cons, h1, h2]
      exact ih
    · simp only [List.map_cons, if_neg hk, List.lookup_cons]
      cases h : (k' == k₁) with
      | true => rfl
      | false => exact ih

theorem lookup_append_single (d : Dict σ) (k : String) (v : Value σ)
    (hm : k ∉ d.map Prod.fst) :
    (d ++ [(k, v)]).lookup k = some v := by
  induction d with
  | nil => simp [List.lookup_cons]
  | cons kv rest ih =>
    obtain ⟨k₁, v₁⟩ := kv
    have hk : k₁ ≠ k := by
      intro h
      exact hm (by simp [h])
    have h1 : (k == k₁) = false := beq_eq_false_iff_ne.mpr (fun h => hk h.symm)
    simp only [List.cons_append, List.lookup_cons, h1]
    exact ih (fun h => hm (by simp only [List.map_cons, List.mem_cons]; exact Or.inr h))

theorem lookup_append_single_ne (d : Dict σ) (k k' : String) (v : Value σ)
    (hne : k' ≠ k) :
    (d ++ [(k, v)]).lookup k' = d.lookup k' := by
  induction d with
  | nil =>
    have h1 : (k' == k) = false := beq_eq_false_iff_ne.mpr hne
    simp [List.lookup_cons, h1]
  | cons kv rest ih =>
    obtain ⟨k₁, v₁⟩ := kv
    simp only [List.cons_append, List.lookup_cons]
    cases h : (k' == k₁) with
    | true => rfl
    | false => exact ih

theorem lookup_dictInsert_self (d : Dict σ) (k : String) (v : Value σ) :
    (dictInsert d k v).lookup k = some v := by
  rw [dictInsert]
  by_cases h : k ∈ d.map Prod.fst
  · rw [if_pos h]; exact lookup_overwrite d k v h
  · rw [if_neg h]; exact lookup_append_single d k v h

theorem lookup_dictInsert_ne (d : Dict σ) (k k' : String) (v : Value σ)
    (hne : k' ≠ k) :
    (dictInsert d k v).lookup k' = d.lookup k' := by
  rw [dictInsert]
  by_cases h : k ∈ d.map Prod.fst
  · rw [if_pos h]; exact lookup_overwrite_ne d k k' v hne
  · rw [if_neg h]; exact lookup_append_single_ne d k k' v hne

theorem dictInsert_not_mem (d : Dict σ) (k : String) (v : Value σ)
    (h : k ∉ d.map Prod.fst) : dictInsert d k v = d ++ [(k, v)] := by
  rw [dictInsert, if_neg h]

theorem dictUpdate_nil (d : Dict σ) : dictUpdate d [] = d := rfl

theorem dictUpdate_cons (d : Dict σ) (kv : String × Value σ) (u : Dict σ) :
    dictUpdate d (kv :: u) = dictUpdate (dictInsert d kv.1 kv.2) u := rfl

theorem lookup_dictUpdate_not_mem (d : Dict σ) (u : Dict σ) (k : String)
    (h : k ∉ u.map Prod.fst) : (dictUpdate d u).lookup k = d.lookup k := by
  induction u generalizing d with
  | nil => rfl
  | cons kv rest ih =>
    rw [dictUpdate_cons, ih _ (fun hm => h (by simpa using Or.inr (by simpa using hm)))]
    exact lookup_dictInsert_ne d kv.1 k kv.2 (fun he => h (by simp [he]))

/-- `d.update(u)` with fresh, duplicate-free keys is plain concatenation. -/
theorem dictUpdate_append (d : Dict σ) (u : Dict σ)
    (hdisj : ∀ k ∈ u.map Prod.fst, k ∉ d.map Prod.fst)
    (hnd : (u.map Prod.fst).Nodup) : dictUpdate d u = d ++ u := by
  induction u generalizing d with
  | nil => simp [dictUpdate_nil]
  | cons kv rest ih =>
    rw [dictUpdate_cons,
      dictInsert_not_mem d kv.1 kv.2 (hdisj kv.1 (by simp))]
    rw [List.map_cons, List.nodup_cons] at hnd
    have hdisj' : ∀ k ∈ rest.map Prod.fst, k ∉ (d ++ [(kv.1, kv.2)]).map Prod.fst := by
      intro k hk
      simp only [List.map_append, List.mem_append]
      rintro (h | h)
      · exact hdisj k (by simpa using Or.inr (by simpa using hk)) h
      · simp at h
        exact hnd.1 (h ▸ hk)
    rw [ih _ hdisj' hnd.2, List.append_assoc]
    rfl

/-! ### Lemmas about stored Metric Records -/

theorem map_fst_scalar (meas : List (String × σ)) :
    (meas.map (fun nv => (nv.1, Value.scalar nv.2))).map Prod.fst = meas.map Prod.fst := by
  simp [List.map_map, Function.comp]

theorem lookup_mkRecord_emptyPred (e : EngineResult σ) :
    (mkRecord e).lookup "EmptyPred" = some (Value.bool e.flag_empty_pred) :=
  lookup_dictInsert_self _ _ _

theorem lookup_mkRecord_emptyRef (e : EngineResult σ) :
    (mkRecord e).lookup "EmptyRef" = some (Value.bool e.flag_empty_ref) := by
  rw [mkRecord, lookup_dictInsert_ne _ _ _ _ (by decide)]
  exact lookup_dictInsert_self _ _ _

/-- With metric names that do not collide with the two flag names, the
stored record is the engine dictionary followed by `EmptyRef` and
`EmptyPred`, in that order. -/
theorem mkRecord_eq (e : EngineResult σ)
    (h1 : "EmptyRef" ∉ e.meas.map Prod.fst) (h2 : "EmptyPred" ∉ e.meas.map Prod.fst) :
    mkRecord e = e.meas.map (fun nv => (nv.1, Value.scalar nv.2)) ++
      [("EmptyRef", Value.bool e.flag_empty_ref),
       ("EmptyPred", Value.bool e.flag_empty_pred)] := by
  have hER : dictInsert (e.meas.map (fun nv => (nv.1, Value.scalar nv.2)))
      "EmptyRef" (Value.bool e.flag_empty_ref) =
      e.meas.map (fun nv => (nv.1, Value.scalar nv.2)) ++
        [("EmptyRef", Value.bool e.flag_empty_ref)] :=
    dictInsert_not_mem _ _ _ (by rw [map_fst_scalar]; exact h1)
  have hEP : "EmptyPred" ∉ (e.meas.map (fun nv : String × σ => (nv.1, Value.scalar nv.2)) ++
      [("EmptyRef", Value.bool e.flag_empty_ref)]).map Prod.fst := by
    intro hm
    rw [List.map_append, map_fst_scalar] at hm
    rcases List.mem_append.mp hm with h | h
    · exact h2 h
    · simp at h
  simp only [mkRecord]
  rw [hER, dictInsert_not_mem _ _ _ hEP, List.append_assoc]
  rfl

/-! ### Lemmas about the Result Table Builder -/

theorem rowOf_eq (item : SubjectResult σ) (label : Int) (rec : MetricRecord σ)
    (hnd : (rec.map Prod.fst).Nodup)
    (hdisj : ∀ k ∈ rec.map Prod.fst,
      k ≠ "reference" ∧ k ≠ "prediction" ∧ k ≠ "label") :
    rowOf item label rec =
      [("reference", Value.str item.reference),
       ("prediction", Value.str item.prediction),
       ("label", Value.label label)] ++ rec := by
  rw [rowOf]
  apply dictUpdate_append
  · intro k hk
    obtain ⟨h1, h2, h3⟩ := hdisj k hk
    simp [h1, h2, h3]
  · exact hnd

theorem lookup_rowOf_label (item : SubjectResult σ) (label : Int)
    (rec : MetricRecord σ) (h : "label" ∉ rec.map Prod.fst) :
    (rowOf item label rec).lookup "label" = some (Value.label label) := by
  rw [rowOf, lookup_dictUpdate_not_mem _ _ _ h]
  rfl

theorem buildRows_eq_flatten (out : List (SubjectResult σ)) :
    buildRows out =
      (out.map (fun item => item.entries.map (fun e => rowOf item e.1 e.2))).flatten := by
  induction out with
  | nil => rfl
  | cons item rest ih => rw [buildRows, ih, List.map_cons, List.flatten_cons]

theorem length_buildRows (out : List (SubjectResult σ)) :
    (buildRows out).length = (out.map (fun item => item.entries.length)).sum := by
  induction out with
  | nil => rfl
  | cons item rest ih =>
    rw [buildRows, List.length_append, ih, List.map_cons, List.sum_cons,
      List.length_map]

/-! ### Lemmas about DataFrame construction -/

theorem mem_dedupKeep (x : String) (l : List String) :
    ∀ seen, x ∈ dedupKeep seen l ↔ x ∈ l ∧ x ∉ seen := by
  induction l with
  | nil => intro seen; simp [dedupKeep]
  | cons c rest ih =>
    intro seen
    by_cases hc : c ∈ seen
    · rw [dedupKeep, if_pos hc, ih]
      constructor
      · rintro ⟨h1, h2⟩
        exact ⟨List.mem_cons_of_mem c h1, h2⟩
      · rintro ⟨h1, h2⟩
        rcases List.mem_cons.mp h1 with rfl | h1
        · exact absurd hc h2
        · exact ⟨h1, h2⟩
    · rw [dedupKeep, if_neg hc, List.mem_cons, ih]
      constructor
      · rintro (rfl | ⟨h1, h2⟩)
        · exact ⟨List.mem_cons_self x rest, hc⟩
        · exact ⟨List.mem_cons_of_mem c h1,
            fun hx => h2 (List.mem_cons_of_mem c hx)⟩
      · rintro ⟨h1, h2⟩
        rcases List.mem_cons.mp h1 with rfl | h1
        · exact Or.inl rfl
        · by_cases hxc : x = c
          · exact Or.inl hxc
          · exact Or.inr ⟨h1, by simp [List.mem_cons, hxc, h2]⟩

theorem nodup_dedupKeep (l : List String) : ∀ seen, (dedupKeep seen l).Nodup := by
  induction l with
  | nil => intro seen; simp [dedupKeep]
  | cons c rest ih =>
    intro seen
    by_cases hc : c ∈ seen
    · rw [dedupKeep, if_pos hc]; exact ih seen
    · rw [dedupKeep, if_neg hc, List.nodup_cons]
      refine ⟨fun hm => ?_, ih (c :: seen)⟩
      exact ((mem_dedupKeep c rest (c :: seen)).mp hm).2 (List.mem_cons_self c seen)

theorem mem_allKeys (rows : List (Dict σ)) (x : String) :
    x ∈ rows.foldr (fun r acc => r.map Prod.fst ++ acc) [] ↔
      ∃ r ∈ rows, x ∈ r.map Prod.fst := by
  induction rows with
  | nil => simp
  | cons r rest ih => simp [List.mem_append, ih]

theorem mem_dfColumns (rows : List (Dict σ)) (c : String) :
    c ∈ dfColumns rows ↔ ∃ r ∈ rows, c ∈ r.map Prod.fst := by
  rw [dfColumns, mem_dedupKeep, mem_allKeys]
  simp

theorem nodup_dfColumns (rows : List (Dict σ)) : (dfColumns rows).Nodup :=
  nodup_dedupKeep _ _

theorem lookup_eq_none_of_not_mem (r : Dict σ) (k : String)
    (h : k ∉ r.map Prod.fst) : r.lookup k = none := by
  induction r with
  | nil => rfl
  | cons kv rest ih =>
    obtain ⟨k₁, v₁⟩ := kv
    have hk : k ≠ k₁ := fun he => h (by simp [he])
    have h1 : (k == k₁) = false := beq_eq_false_iff_ne.mpr hk
    simp only [List.lookup_cons, h1]
    exact ih (fun hm => h (List.mem_cons_of_mem _ hm))

/-! ### Lemmas about masks and reconstruction -/

theorem length_extract_mask (v : Volume) (label : Int) :
    (extract_mask v label).length = v.data.length := by
  simp [extract_mask]

theorem getElem?_extract_mask (v : Volume) (label : Int) (i : Nat)
    (hi : i < v.data.length) :
    (extract_mask v label)[i]? = some (if v.data[i] = label then 1 else 0) := by
  simp [extract_mask, List.getElem?_eq_getElem hi]

theorem applyMask_length (acc mask : List Int) (label : Int)
    (h : mask.length = acc.length) :
    (applyMask acc mask label).length = acc.length := by
  simp [applyMask, h]

theorem applyMask_getElem? (v : Volume) (acc : List Int) (ℓ : Int) (i : Nat)
    (hlen : acc.length = v.data.length) (hi : i < v.data.length) :
    (applyMask acc (extract_mask v ℓ) ℓ)[i]? =
      some (if v.data[i] = ℓ then ℓ else acc[i]) := by
  have hia : i < acc.length := by omega
  rw [applyMask, List.getElem?_zipWith, List.getElem?_eq_getElem hia,
    getElem?_extract_mask v ℓ i hi]
  by_cases h : v.data[i] = ℓ <;> simp [h, Option.map]

theorem foldl_applyMask (v : Volume) (L : List Int) :
    ∀ (acc : List Int) (hlen : acc.length = v.data.length),
      (L.foldl (fun acc ℓ => applyMask acc (extract_mask v ℓ) ℓ) acc).length =
          v.data.length ∧
      ∀ i (hi : i < v.data.length),
        (L.foldl (fun acc ℓ => applyMask acc (extract_mask v ℓ) ℓ) acc)[i]? =
          some (if v.data[i] ∈ L then v.data[i] else acc[i]) := by
  induction L with
  | nil =>
    intro acc hlen
    refine ⟨hlen, fun i hi => ?_⟩
    have hia : i < acc.length := by omega
    simp [List.getElem?_eq_getElem hia]
  | cons ℓ rest ih =>
    intro acc hlen
    have hstep : (applyMask acc (extract_mask v ℓ) ℓ).length = v.data.length := by
      rw [applyMask_length]
      · exact hlen
      · rw [length_extract_mask, hlen]
    obtain ⟨ihlen, ihget⟩ := ih (applyMask acc (extract_mask v ℓ) ℓ) hstep
    refine ⟨by simpa using ihlen, fun i hi => ?_⟩
    rw [List.foldl_cons, ihget i hi]
    have hstep2 : i < (applyMask acc (extract_mask v ℓ) ℓ).length := by omega
    have happ := applyMask_getElem? v acc ℓ i hlen hi
    rw [List.getElem?_eq_getElem hstep2] at happ
    have happ' : (applyMask acc (extract_mask v ℓ) ℓ)[i] =
        if v.data[i] = ℓ then ℓ else acc[i] := by
      exact Option.some.inj happ
    rw [happ']
    by_cases hmem : v.data[i] ∈ rest
    · simp [hmem, List.mem_cons]
    · by_cases heq : v.data[i] = ℓ
      · simp [hmem, heq, List.mem_cons]
      · simp [hmem, heq, List.mem_cons]

theorem length_reconstruct (v : Volume) (L : List Int) :
    (reconstruct v L).length = v.data.length :=
  (foldl_applyMask v L _ (by simp)).1

theorem getElem?_reconstruct (v : Volume) (L : List Int) (i : Nat)
    (hi : i < v.data.length) :
    (reconstruct v L)[i]? = some (if v.data[i] ∈ L then v.data[i] else 0) := by
  have h := (foldl_applyMask v L (List.replicate v.data.length 0) (by simp)).2 i hi
  rw [reconstruct, h]
  congr 1
  by_cases hmem : v.data[i] ∈ L <;> simp [hmem]

/-- Reconstruction from the volume's own discovered labels recovers the
volume exactly (non-background voxels get their label back; background
voxels stay `0`). -/
theorem reconstruct_discover_labels (v : Volume) :
    reconstruct v (discover_labels v v) = v.data := by
  apply List.ext_getElem?
  intro i
  by_cases hi : i < v.data.length
  · rw [getElem?_reconstruct v _ i hi, List.getElem?_eq_getElem hi]
    by_cases hmem : v.data[i] ∈ discover_labels v v
    · simp [hmem]
    · have : v.data[i] = 0 := by
        by_contra hne
        exact hmem ((mem_discover_labels v v _).mpr
          ⟨hne, Or.inl (List.getElem_mem hi)⟩)
      simp [hmem, this]
  · rw [List.getElem?_eq_none (by rw [length_reconstruct]; omega),
      List.getElem?_eq_none (by omega)]

/-! ### Lemmas about subject processing -/

theorem process_subjects_forall₂ (E : Engine σ) (m : List String) :
    ∀ (subjects : List SubjectInput) (out : List (SubjectResult σ)),
      process_subjects E m subjects = .ok out →
      List.Forall₂ (fun s item =>
        compute_metrics_single_subject E s.prediction s.prediction_data
          s.reference s.reference_data m = .ok item) subjects out := by
  intro subjects
  induction subjects with
  | nil =>
    intro out h
    rw [process_subjects] at h
    cases h
    exact List.Forall₂.nil
  | cons s rest ih =>
    intro out h
    rw [process_subjects] at h
    cases hc : compute_metrics_single_subject E s.prediction s.prediction_data
        s.reference s.reference_data m with
    | error e => rw [hc] at h; exact Except.noConfusion h
    | ok y =>
      rw [hc] at h
      cases hr : process_subjects E m rest with
      | error e => rw [hr] at h; exact Except.noConfusion h
      | ok out' =>
        rw [hr] at h
        cases h
        exact List.Forall₂.cons hc (ih out' hr)

theorem exists_rel_of_forall₂ {α β : Type} {R : α → β → Prop} :
    ∀ {l₁ : List α} {l₂ : List β}, List.Forall₂ R l₁ l₂ → ∀ a ∈ l₁, ∃ b, R a b := by
  intro l₁ l₂ hf
  induction hf with
  | nil => intro a ha; simp at ha
  | cons hrel htail ih =>
    intro a ha
    rcases List.mem_cons.mp ha with rfl | ha'
    · exact ⟨_, hrel⟩
    · exact ih a ha'

theorem process_subjects_mem_ok (E : Engine σ) (m : List String)
    (subjects : List SubjectInput) (out : List (SubjectResult σ))
    (h : process_subjects E m subjects = .ok out) (s : SubjectInput)
    (hs : s ∈ subjects) :
    ∃ y, compute_metrics_single_subject E s.prediction s.prediction_data
      s.reference s.reference_data m = .ok y :=
  exists_rel_of_forall₂ (process_subjects_forall₂ E m subjects out h) s hs

/-- Each Subject Result produced by the evaluator lists its labels in
strictly ascending order. -/
theorem entries_keys_sorted (E : Engine σ) (pn : String) (p : Volume)
    (rn : String) (r : Volume) (m : List String) (res : SubjectResult σ)
    (h : compute_metrics_single_subject E pn p rn r m = .ok res) :
    (res.entries.map Prod.fst).Sorted (· < ·) := by
  by_cases hsh : p.shape = r.shape
  · rw [evaluator_eq E pn p rn r m hsh] at h
    cases h
    by_cases hL : discover_labels r p = []
    · simp [hL]
    · have hmap : ((discover_labels r p).map (procEntry E p r m)).map Prod.fst =
          discover_labels r p := by
        rw [List.map_map]
        have hid : ∀ a ∈ discover_labels r p,
            (Prod.fst ∘ procEntry E p r m) a = id a := fun a _ => rfl
        rw [List.map_congr_left hid, List.map_id]
      simp only [if_neg hL, hmap]
      exact sorted_discover_labels r p
  · rw [compute_metrics_single_subject, if_pos hsh] at h
    cases h

theorem filter_eq_singleton_of_nodup (l : List Int) (a : Int)
    (hnd : l.Nodup) (ha : a ∈ l) :
    l.filter (fun x => x = a) = [a] := by
  induction l with
  | nil => simp at ha
  | cons b rest ih =>
    rw [List.nodup_cons] at hnd
    rcases List.mem_cons.mp ha with rfl | ha'
    · rw [List.filter_cons_of_pos (by simp)]
      rw [List.filter_eq_nil_iff.mpr (fun x hx => by
        simp only [decide_eq_true_eq]
        intro he
        exact hnd.1 (he ▸ hx))]
    · rw [List.filter_cons_of_neg (by
        simp only [decide_eq_true_eq]
        intro he
        exact hnd.1 (he ▸ ha'))]
      exact ih hnd.2 ha'

theorem exists_rel_of_forall₂_right {α β : Type} {R : α → β → Prop} :
    ∀ {l₁ : List α} {l₂ : List β}, List.Forall₂ R l₁ l₂ → ∀ b ∈ l₂, ∃ a, R a b := by
  intro l₁ l₂ hf
  induction hf with
  | nil => intro b hb; simp at hb
  | cons hrel htail ih =>
    intro b hb
    rcases List.mem_cons.mp hb with rfl | hb'
    · exact ⟨_, hrel⟩
    · exact ih b hb'

/-! ## The claims -/

/-- Claim C1: for a same-shaped, entirely-background reference/prediction
pair, `compute_metrics_single_subject` returns a Subject Result with
exactly one entry, stored under reserved key `0`, computed by one engine
call on the entire volumes (not label-filtered masks); the per-label loop
contributes zero entries. -/
theorem evaluate_subject_all_background (E : Engine σ) (pn rn : String)
    (p r : Volume) (m : List String) (hsh : p.shape = r.shape)
    (hp : ∀ x ∈ p.data, x = 0) (hr : ∀ x ∈ r.data, x = 0) :
    compute_metrics_single_subject E pn p rn r m =
      .ok ⟨rn, pn, [((0 : Int), mkRecord (E.run p.data r.data m))]⟩ := by
  rw [evaluator_eq E pn p rn r m hsh, discover_labels_nil r p hr hp]
  simp

theorem evaluate_subject_all_background_witness :
    (⟨[2, 2, 2], List.replicate 8 0⟩ : Volume).shape =
      (⟨[2, 2, 2], List.replicate 8 0⟩ : Volume).shape ∧
    (∀ x ∈ (⟨[2, 2, 2], List.replicate 8 0⟩ : Volume).data, x = 0) ∧
    compute_metrics_single_subject testEngine "pred.nii.gz"
        ⟨[2, 2, 2], List.replicate 8 0⟩ "ref.nii.gz" ⟨[2, 2, 2], List.replicate 8 0⟩
        ["dsc", "nsd"] =
      .ok ⟨"ref.nii.gz", "pred.nii.gz",
        [((0 : Int), mkRecord (testEngine.run (List.replicate 8 0)
          (List.replicate 8 0) ["dsc", "nsd"]))]⟩ :=
  ⟨rfl, by decide,
    evaluate_subject_all_background testEngine "pred.nii.gz" "ref.nii.gz"
      ⟨[2, 2, 2], List.replicate 8 0⟩ ⟨[2, 2, 2], List.replicate 8 0⟩
      ["dsc", "nsd"] rfl (by decide) (by decide)⟩

/-- Claim C2: for a same-shaped pair, every non-zero label present in
either volume gets exactly one Metric Record, keyed by that label (no
label of the union is skipped), and the record carries the engine's
`EmptyRef`/`EmptyPred` flags; with an engine whose flags report exact
mask emptiness, those flags say which side's mask was empty. -/
theorem evaluate_subject_union_label_coverage (E : Engine σ) (pn rn : String)
    (p r : Volume) (m : List String) (ℓ : Int) (hsh : p.shape = r.shape)
    (hℓ : ℓ ∈ discover_labels r p)
    (hER : ∀ pm rm ms, (E.run pm rm ms).flag_empty_ref = rm.all (fun x => x == 0))
    (hEP : ∀ pm rm ms, (E.run pm rm ms).flag_empty_pred = pm.all (fun x => x == 0)) :
    ∃ res : SubjectResult σ,
      compute_metrics_single_subject E pn p rn r m = .ok res ∧
      res.entries.map Prod.fst = discover_labels r p ∧
      res.entries.filter (fun e => e.1 = ℓ) =
        [(ℓ, mkRecord (E.run (extract_mask p ℓ) (extract_mask r ℓ) m))] ∧
      (mkRecord (E.run (extract_mask p ℓ) (extract_mask r ℓ) m)).lookup "EmptyRef" =
        some (Value.bool ((extract_mask r ℓ).all (fun x => x == 0))) ∧
      (mkRecord (E.run (extract_mask p ℓ) (extract_mask r ℓ) m)).lookup "EmptyPred" =
        some (Value.bool ((extract_mask p ℓ).all (fun x => x == 0))) := by
  have hL : discover_labels r p ≠ [] := by
    intro h
    rw [h] at hℓ
    exact absurd hℓ (List.not_mem_nil ℓ)
  have hmap : ((discover_labels r p).map (procEntry E p r m)).map Prod.fst =
      discover_labels r p := by
    rw [List.map_map]
    have hid : ∀ a ∈ discover_labels r p,
        (Prod.fst ∘ procEntry E p r m) a = id a := fun a _ => rfl
    rw [List.map_congr_left hid, List.map_id]
  refine ⟨⟨rn, pn, (discover_labels r p).map (procEntry E p r m)⟩, ?_, hmap, ?_, ?_, ?_⟩
  · rw [evaluator_eq E pn p rn r m hsh, if_neg hL]
  · rw [List.filter_map]
    have hcomp : ((fun e : Int × MetricRecord σ => decide (e.1 = ℓ)) ∘
        procEntry E p r m) = fun x => decide (x = ℓ) := rfl
    rw [hcomp, filter_eq_singleton_of_nodup _ ℓ (sorted_discover_labels r p).nodup hℓ]
    rfl
  · rw [lookup_mkRecord_emptyRef, hER]
  · rw [lookup_mkRecord_emptyPred, hEP]

theorem evaluate_subject_union_label_coverage_witness :
    (⟨[4], [1, 3, 0, 0]⟩ : Volume).shape = (⟨[4], [1, 2, 0, 0]⟩ : Volume).shape ∧
    (2 : Int) ∈ discover_labels ⟨[4], [1, 2, 0, 0]⟩ ⟨[4], [1, 3, 0, 0]⟩ ∧
    ∃ res : SubjectResult Int,
      compute_metrics_single_subject testEngine "pred.nii.gz" ⟨[4], [1, 3, 0, 0]⟩
        "ref.nii.gz" ⟨[4], [1, 2, 0, 0]⟩ ["dsc"] = .ok res ∧
      res.entries.map Prod.fst = discover_labels ⟨[4], [1, 2, 0, 0]⟩ ⟨[4], [1, 3, 0, 0]⟩ ∧
      res.entries.filter (fun e => e.1 = (2 : Int)) =
        [((2 : Int), mkRecord (testEngine.run
          (extract_mask ⟨[4], [1, 3, 0, 0]⟩ 2) (extract_mask ⟨[4], [1, 2, 0, 0]⟩ 2) ["dsc"]))] ∧
      (mkRecord (testEngine.run (extract_mask ⟨[4], [1, 3, 0, 0]⟩ 2)
          (extract_mask ⟨[4], [1, 2, 0, 0]⟩ 2) ["dsc"])).lookup "EmptyRef" =
        some (Value.bool ((extract_mask ⟨[4], [1, 2, 0, 0]⟩ 2).all (fun x => x == 0))) ∧
      (mkRecord (testEngine.run (extract_mask ⟨[4], [1, 3, 0, 0]⟩ 2)
          (extract_mask ⟨[4], [1, 2, 0, 0]⟩ 2) ["dsc"])).lookup "EmptyPred" =
        some (Value.bool ((extract_mask ⟨[4], [1, 3, 0, 0]⟩ 2).all (fun x => x == 0))) :=
  ⟨rfl, by decide,
    evaluate_subject_union_label_coverage testEngine "pred.nii.gz" "ref.nii.gz"
      ⟨[4], [1, 3, 0, 0]⟩ ⟨[4], [1, 2, 0, 0]⟩ ["dsc"] 2 rfl (by decide)
      (fun _ _ _ => rfl) (fun _ _ _ => rfl)⟩

/-- Claim C3: the Label Discoverer returns exactly the union of distinct
non-zero values of reference and prediction, sorted strictly ascending,
duplicate-free, background excluded; `discover_labels A A` is the sorted
distinct non-zero values of `A`, and the result is empty when both
volumes are all-background. -/
theorem discover_labels_spec (reference_data prediction_data A : Volume) :
    (∀ x : Int, x ∈ discover_labels reference_data prediction_data ↔
      x ≠ 0 ∧ (x ∈ reference_data.data ∨ x ∈ prediction_data.data)) ∧
    (discover_labels reference_data prediction_data).Sorted (· < ·) ∧
    (discover_labels reference_data prediction_data).Nodup ∧
    (0 : Int) ∉ discover_labels reference_data prediction_data ∧
    discover_labels A A = npUnique (A.data.filter (fun x => x ≠ 0)) ∧
    ((∀ x ∈ reference_data.data, x = 0) → (∀ x ∈ prediction_data.data, x = 0) →
      discover_labels reference_data prediction_data = []) := by
  refine ⟨mem_discover_labels _ _, sorted_discover_labels _ _,
    (sorted_discover_labels _ _).nodup, ?_, ?_, discover_labels_nil _ _⟩
  · intro h
    exact ((mem_discover_labels _ _ 0).mp h).1 rfl
  · apply sortedLt_eq_of_mem_iff (sorted_discover_labels _ _) (sorted_npUnique _)
    intro x
    rw [mem_discover_labels, mem_npUnique, List.mem_filter]
    simp only [decide_eq_true_eq]
    tauto

theorem discover_labels_spec_witness :
    (∀ x ∈ (⟨[2], [0, 0]⟩ : Volume).data, x = 0) ∧
    discover_labels ⟨[2], [0, 0]⟩ ⟨[2], [0, 0]⟩ = [] ∧
    discover_labels ⟨[3], [2, 0, 1]⟩ ⟨[3], [2, 0, 1]⟩ =
      npUnique ((⟨[3], [2, 0, 1]⟩ : Volume).data.filter (fun x => x ≠ 0)) :=
  ⟨by decide,
    (discover_labels_spec ⟨[2], [0, 0]⟩ ⟨[2], [0, 0]⟩ ⟨[2], [0, 0]⟩).2.2.2.2.2
      (by decide) (by decide),
    (discover_labels_spec ⟨[3], [2, 0, 1]⟩ ⟨[3], [2, 0, 1]⟩ ⟨[3], [2, 0, 1]⟩).2.2.2.2.1⟩

/-- Claim C7: the sentinel `break`/`else` loop of the source (break when
the current label equals the maximum of the discovered set, fallthrough
handling the no-labels case) is extensionally equal to the spec's
explicit-conditional formulation of the Subject Evaluator. -/
theorem break_else_loop_equiv (E : Engine σ) (pn : String) (p : Volume)
    (rn : String) (r : Volume) (m : List String) :
    compute_metrics_single_subject E pn p rn r m =
      evaluate_subject_spec E pn p rn r m := by
  by_cases hsh : p.shape = r.shape
  · rw [evaluator_eq E pn p rn r m hsh, evaluate_subject_spec,
      if_neg (show ¬(p.shape ≠ r.shape) by simp [hsh])]
    by_cases hL : discover_labels r p = [] <;> simp [hL]
  · rw [compute_metrics_single_subject, evaluate_subject_spec,
      if_pos hsh, if_pos hsh]

/-- Claim C9: the Subject Evaluator is deterministic — it is a pure
function of its inputs, and any two engines that agree extensionally on
every (prediction mask, reference mask, metric list) triple produce
identical Subject Results. -/
theorem evaluate_subject_deterministic (E₁ E₂ : Engine σ)
    (hE : ∀ pm rm ms, E₁.run pm rm ms = E₂.run pm rm ms)
    (pn : String) (p : Volume) (rn : String) (r : Volume) (m : List String) :
    compute_metrics_single_subject E₁ pn p rn r m =
      compute_metrics_single_subject E₂ pn p rn r m := by
  have hEE : E₁ = E₂ := by
    obtain ⟨f₁⟩ := E₁
    obtain ⟨f₂⟩ := E₂
    congr 1
    funext pm rm ms
    exact hE pm rm ms
  rw [hEE]

theorem evaluate_subject_deterministic_witness :
    (∀ pm rm ms, testEngine.run pm rm ms = testEngine2.run pm rm ms) ∧
    compute_metrics_single_subject testEngine "pred.nii.gz" ⟨[2], [1, 0]⟩
        "ref.nii.gz" ⟨[2], [1, 1]⟩ ["dsc"] =
      compute_metrics_single_subject testEngine2 "pred.nii.gz" ⟨[2], [1, 0]⟩
        "ref.nii.gz" ⟨[2], [1, 1]⟩ ["dsc"] :=
  ⟨fun pm rm ms => by simp [testEngine, testEngine2, Int.add_comm],
    evaluate_subject_deterministic testEngine testEngine2
      (fun pm rm ms => by simp [testEngine, testEngine2, Int.add_comm])
      "pred.nii.gz" ⟨[2], [1, 0]⟩ "ref.nii.gz" ⟨[2], [1, 1]⟩ ["dsc"]⟩

/-- Claim C4: a shape mismatch makes `compute_metrics_single_subject`
fail with the shape-mismatch error naming both shapes, before any metric
is computed (the result is the same for every engine), and the error
propagates through the run so no output table is produced. -/
theorem shape_mismatch_fails_fast (E E' : Engine σ) (pn rn : String)
    (p r : Volume) (m : List String) (h : p.shape ≠ r.shape)
    (subjects : List SubjectInput)
    (hmem : (⟨pn, p, rn, r⟩ : SubjectInput) ∈ subjects) :
    compute_metrics_single_subject E pn p rn r m =
      .error (shapeMismatchMsg p.shape r.shape) ∧
    compute_metrics_single_subject E pn p rn r m =
      compute_metrics_single_subject E' pn p rn r m ∧
    ∀ df : DataFrame σ, main_run E subjects m ≠ .ok df := by
  have h1 : compute_metrics_single_subject E pn p rn r m =
      .error (shapeMismatchMsg p.shape r.shape) := by
    rw [compute_metrics_single_subject, if_pos h]
  have h2 : compute_metrics_single_subject E' pn p rn r m =
      .error (shapeMismatchMsg p.shape r.shape) := by
    rw [compute_metrics_single_subject, if_pos h]
  refine ⟨h1, h1.trans h2.symm, ?_⟩
  intro df hdf
  rw [main_run] at hdf
  cases hps : process_subjects E m subjects with
  | error e => rw [hps] at hdf; exact Except.noConfusion hdf
  | ok out =>
    obtain ⟨y, hy⟩ := process_subjects_mem_ok E m subjects out hps _ hmem
    rw [h1] at hy
    exact Except.noConfusion hy

theorem shape_mismatch_fails_fast_witness :
    (⟨[4, 4, 4], []⟩ : Volume).shape ≠ (⟨[4, 4, 5], []⟩ : Volume).shape ∧
    compute_metrics_single_subject testEngine "pred.nii.gz" ⟨[4, 4, 4], []⟩
        "ref.nii.gz" ⟨[4, 4, 5], []⟩ ["dsc"] =
      .error (shapeMismatchMsg [4, 4, 4] [4, 4, 5]) ∧
    ∀ df : DataFrame Int,
      main_run testEngine
        [⟨"pred.nii.gz", ⟨[4, 4, 4], []⟩, "ref.nii.gz", ⟨[4, 4, 5], []⟩⟩] ["dsc"] ≠
        .ok df :=
  ⟨by decide,
    (shape_mismatch_fails_fast testEngine testEngine "pred.nii.gz" "ref.nii.gz"
      ⟨[4, 4, 4], []⟩ ⟨[4, 4, 5], []⟩ ["dsc"] (by decide)
      [⟨"pred.nii.gz", ⟨[4, 4, 4], []⟩, "ref.nii.gz", ⟨[4, 4, 5], []⟩⟩]
      (List.mem_singleton.mpr rfl)).1,
    (shape_mismatch_fails_fast testEngine testEngine "pred.nii.gz" "ref.nii.gz"
      ⟨[4, 4, 4], []⟩ ⟨[4, 4, 5], []⟩ ["dsc"] (by decide)
      [⟨"pred.nii.gz", ⟨[4, 4, 4], []⟩, "ref.nii.gz", ⟨[4, 4, 5], []⟩⟩]
      (List.mem_singleton.mpr rfl)).2.2⟩

/-- Claim C5: `build_output_dataframe` emits exactly one row per
(subject, label) pair — `sum over subjects of |labels|` rows — and each
row is `{reference, prediction, label}` followed by the label's Metric
Record fields; a stored record is the engine's fields in engine-response
order followed by the two empty-flags (given non-colliding field names,
as produced by Python dictionaries). -/
theorem build_table_row_structure (out : List (SubjectResult σ))
    (hrec : ∀ item ∈ out, ∀ e ∈ item.entries,
      ((e.2 : MetricRecord σ).map Prod.fst).Nodup ∧
      ∀ k ∈ (e.2 : MetricRecord σ).map Prod.fst,
        k ≠ "reference" ∧ k ≠ "prediction" ∧ k ≠ "label") :
    (buildRows out).length = (out.map (fun item => item.entries.length)).sum ∧
    buildRows out = (out.map (fun item => item.entries.map (fun e =>
      [("reference", Value.str item.reference),
       ("prediction", Value.str item.prediction),
       ("label", Value.label e.1)] ++ e.2))).flatten ∧
    ∀ (e : EngineResult σ), "EmptyRef" ∉ e.meas.map Prod.fst →
      "EmptyPred" ∉ e.meas.map Prod.fst →
      mkRecord e = e.meas.map (fun nv => (nv.1, Value.scalar nv.2)) ++
        [("EmptyRef", Value.bool e.flag_empty_ref),
         ("EmptyPred", Value.bool e.flag_empty_pred)] := by
  refine ⟨length_buildRows out, ?_, fun e h1 h2 => mkRecord_eq e h1 h2⟩
  rw [buildRows_eq_flatten]
  congr 1
  apply List.map_congr_left
  intro item hitem
  apply List.map_congr_left
  intro e he
  obtain ⟨hnd, hdisj⟩ := hrec item hitem e he
  exact rowOf_eq item e.1 e.2 hnd hdisj

theorem build_table_row_structure_witness :
    (∀ item ∈ ([⟨"ref1", "pred1", [(1, [("dsc", Value.scalar (3 : Int))])]⟩,
        ⟨"ref2", "pred2", [((0 : Int), [("nsd", Value.scalar (4 : Int))])]⟩] :
        List (SubjectResult Int)), ∀ e ∈ item.entries,
      ((e.2 : MetricRecord Int).map Prod.fst).Nodup ∧
      ∀ k ∈ (e.2 : MetricRecord Int).map Prod.fst,
        k ≠ "reference" ∧ k ≠ "prediction" ∧ k ≠ "label") ∧
    (buildRows ([⟨"ref1", "pred1", [(1, [("dsc", Value.scalar (3 : Int))])]⟩,
        ⟨"ref2", "pred2", [((0 : Int), [("nsd", Value.scalar (4 : Int))])]⟩] :
        List (SubjectResult Int))).length =
      (([⟨"ref1", "pred1", [(1, [("dsc", Value.scalar (3 : Int))])]⟩,
        ⟨"ref2", "pred2", [((0 : Int), [("nsd", Value.scalar (4 : Int))])]⟩] :
        List (SubjectResult Int)).map (fun item => item.entries.length)).sum :=
  ⟨by decide,
    (build_table_row_structure
      ([⟨"ref1", "pred1", [(1, [("dsc", Value.scalar (3 : Int))])]⟩,
        ⟨"ref2", "pred2", [((0 : Int), [("nsd", Value.scalar (4 : Int))])]⟩] :
        List (SubjectResult Int)) (by decide)).1⟩

/-- Claim C6: rows of the Result Table appear in a stable order —
subjects in input-processing order (the `i`-th Subject Result comes from
the `i`-th subject), each subject contributing its block of rows in turn,
and within each subject the labels strictly ascending (so the reserved
key `0`, present only as the numerically smallest, sorts first). -/
theorem result_table_row_order (E : Engine σ) (m : List String)
    (subjects : List SubjectInput) (out : List (SubjectResult σ))
    (h : process_subjects E m subjects = .ok out) :
    out.length = subjects.length ∧
    (∀ i (hi : i < subjects.length) (ho : i < out.length),
      compute_metrics_single_subject E subjects[i].prediction
        subjects[i].prediction_data subjects[i].reference
        subjects[i].reference_data m = .ok out[i]) ∧
    (∀ item ∈ out, (item.entries.map Prod.fst).Sorted (· < ·)) ∧
    buildRows out =
      (out.map (fun item => item.entries.map (fun e => rowOf item e.1 e.2))).flatten := by
  have hf := process_subjects_forall₂ E m subjects out h
  refine ⟨hf.length_eq.symm, ?_, ?_, buildRows_eq_flatten out⟩
  · intro i hi ho
    exact (List.forall₂_iff_get.mp hf).2 i hi ho
  · intro item hitem
    obtain ⟨s, hs⟩ := exists_rel_of_forall₂_right hf item hitem
    exact entries_keys_sorted E s.prediction s.prediction_data s.reference
      s.reference_data m item hs

theorem result_table_row_order_witness :
    process_subjects testEngine ["dsc"]
        [⟨"pred.nii.gz", ⟨[2], [1, 0]⟩, "ref.nii.gz", ⟨[2], [1, 1]⟩⟩] =
      .ok [⟨"ref.nii.gz", "pred.nii.gz",
        [((1 : Int), [("dsc", Value.scalar (3 : Int)),
          ("EmptyRef", Value.bool false), ("EmptyPred", Value.bool false)])]⟩] ∧
    ∀ item ∈ ([⟨"ref.nii.gz", "pred.nii.gz",
        [((1 : Int), [("dsc", Value.scalar (3 : Int)),
          ("EmptyRef", Value.bool false), ("EmptyPred", Value.bool false)])]⟩] :
        List (SubjectResult Int)),
      (item.entries.map Prod.fst).Sorted (· < ·) :=
  ⟨rfl,
    (result_table_row_order testEngine ["dsc"]
      [⟨"pred.nii.gz", ⟨[2], [1, 0]⟩, "ref.nii.gz", ⟨[2], [1, 1]⟩⟩]
      [⟨"ref.nii.gz", "pred.nii.gz",
        [((1 : Int), [("dsc", Value.scalar (3 : Int)),
          ("EmptyRef", Value.bool false), ("EmptyPred", Value.bool false)])]⟩]
      rfl).2.2.1⟩

/-- Claim C8: `extract_mask(V, ℓ)` is a same-length mask that is true
(value `1`) exactly at voxels where `V` equals `ℓ` and false (`0`)
elsewhere; reconstructing a volume by assigning `ℓ` at the mask-true
voxels of `extract_mask(V, ℓ)` for each ℓ of the discovered label set
recovers every non-background voxel of `V` (and so the whole volume). -/
theorem extract_mask_spec (v : Volume) (label : Int) :
    (extract_mask v label).length = v.data.length ∧
    (∀ i (hi : i < v.data.length),
      (extract_mask v label)[i]? = some (if v.data[i] = label then 1 else 0) ∧
      ((extract_mask v label)[i]? = some 1 ↔ v.data[i] = label)) ∧
    reconstruct v (discover_labels v v) = v.data := by
  refine ⟨length_extract_mask v label, fun i hi =>
    ⟨getElem?_extract_mask v label i hi, ?_⟩, reconstruct_discover_labels v⟩
  rw [getElem?_extract_mask v label i hi]
  by_cases h : v.data[i] = label <;> simp [h]

theorem extract_mask_spec_witness :
    ((1 : Nat) < (⟨[4], [0, 1, 2, 1]⟩ : Volume).data.length) ∧
    ((extract_mask ⟨[4], [0, 1, 2, 1]⟩ 1)[1]? = some 1 ↔
      (⟨[4], [0, 1, 2, 1]⟩ : Volume).data[1] = 1) ∧
    reconstruct ⟨[4], [0, 1, 2, 1]⟩
        (discover_labels ⟨[4], [0, 1, 2, 1]⟩ ⟨[4], [0, 1, 2, 1]⟩) =
      (⟨[4], [0, 1, 2, 1]⟩ : Volume).data :=
  ⟨by decide,
    ((extract_mask_spec ⟨[4], [0, 1, 2, 1]⟩ 1).2.1 1 (by decide)).2,
    (extract_mask_spec ⟨[4], [0, 1, 2, 1]⟩ 1).2.2⟩

/-- Claim C10: `build_output_dataframe` tolerates Metric Records with
differing metric-name sets: the column set is the union of all observed
fields (first-appearance order, duplicate-free), no row is dropped, and a
row's absent fields are filled with the missing-value marker (`none`). -/
theorem build_table_column_superset (out : List (SubjectResult σ)) :
    (build_output_dataframe out).cells.length = (buildRows out).length ∧
    (build_output_dataframe out).columns.Nodup ∧
    (∀ c : String, c ∈ (build_output_dataframe out).columns ↔
      ∃ r ∈ buildRows out, c ∈ r.map Prod.fst) ∧
    ∀ i (hi : i < (buildRows out).length),
      (build_output_dataframe out).cells[i]? =
        some ((build_output_dataframe out).columns.map
          (fun c => ((buildRows out)[i]).lookup c)) ∧
      ∀ c ∈ (build_output_dataframe out).columns,
        c ∉ ((buildRows out)[i]).map Prod.fst →
          ((buildRows out)[i]).lookup c = none := by
  refine ⟨by simp [build_output_dataframe, mkDataFrame],
    nodup_dfColumns _, fun c => mem_dfColumns _ c, ?_⟩
  intro i hi
  constructor
  · show ((buildRows out).map (fun r => (dfColumns (buildRows out)).map
      (fun c => r.lookup c)))[i]? = _
    rw [List.getElem?_map, List.getElem?_eq_getElem hi]
    rfl
  · intro c _ hnm
    exact lookup_eq_none_of_not_mem _ c hnm

theorem build_table_column_superset_witness :
    (build_output_dataframe ([⟨"ref1", "pred1", [(1, [("dsc", Value.scalar (1 : Int))])]⟩,
        ⟨"ref2", "pred2", [(1, [("nsd", Value.scalar (2 : Int))])]⟩] :
        List (SubjectResult Int))).cells[0]? =
      some ((build_output_dataframe ([⟨"ref1", "pred1", [(1, [("dsc", Value.scalar (1 : Int))])]⟩,
        ⟨"ref2", "pred2", [(1, [("nsd", Value.scalar (2 : Int))])]⟩] :
        List (SubjectResult Int))).columns.map
        (fun c => ((buildRows ([⟨"ref1", "pred1", [(1, [("dsc", Value.scalar (1 : Int))])]⟩,
          ⟨"ref2", "pred2", [(1, [("nsd", Value.scalar (2 : Int))])]⟩] :
          List (SubjectResult Int))).get ⟨0, by decide⟩).lookup c)) ∧
    ((buildRows ([⟨"ref1", "pred1", [(1, [("dsc", Value.scalar (1 : Int))])]⟩,
        ⟨"ref2", "pred2", [(1, [("nsd", Value.scalar (2 : Int))])]⟩] :
        List (SubjectResult Int))).get ⟨0, by decide⟩).lookup "nsd" = none :=
  ⟨((build_table_column_superset ([⟨"ref1", "pred1", [(1, [("dsc", Value.scalar (1 : Int))])]⟩,
      ⟨"ref2", "pred2", [(1, [("nsd", Value.scalar (2 : Int))])]⟩] :
      List (SubjectResult Int))).2.2.2 0 (by decide)).1,
    ((build_table_column_superset ([⟨"ref1", "pred1", [(1, [("dsc", Value.scalar (1 : Int))])]⟩,
      ⟨"ref2", "pred2", [(1, [("nsd", Value.scalar (2 : Int))])]⟩] :
      List (SubjectResult Int))).2.2.2 0 (by decide)).2 "nsd" (by decide) (by decide)⟩

end ComputeMetricsReloaded
